import Mathlib

/-!
Shallow embedding of the torrt repository's quality-resolution algorithm
(src/torrt/trackers/anilibria.py) and of the qBittorrent RPC session layer
(src/torrt/rpc/qbittorrent.py), together with proofs settling the frozen
claims C1..C10.

Python strings are modelled as lists of Unicode code points (`List Nat`);
`codes` converts a Lean string literal into this representation.  Python
exceptions are modelled explicitly (`PyError`, `Except`), never swallowed.
-/

namespace Torrt

/-- A Python string, as its list of Unicode code points. -/
abbrev PyStr := List Nat

/-- Code points of a Lean string literal, for writing concrete inputs. -/
def codes (s : String) : PyStr := s.data.map Char.toNat

/-- `HOST = 'https://www.anilibria.tv'` (anilibria.py line 16). -/
def hostCodes : PyStr := codes "https://www.anilibria.tv"

/-! ### Quality Normalizer (anilibria.py `sanitize_quality`, `REGEX_NON_WORD`) -/

/-- Fragment of Python's Unicode-aware regex class `\w` (word character:
underscore, or any code point whose `str.isalnum()` is true), covering the
code points this development reasons about: ASCII digits, ASCII letters,
underscore, the Cyrillic letters U+0410..U+044F together with Ё (U+0401) and
ё (U+0451), and the dotted capital I (U+0130).  Combining marks such as the
combining dot above (U+0307) are not alphanumeric in Python, hence not word
characters.  `REGEX_NON_WORD = [\W_]` matches exactly the characters that
are not word characters, plus the underscore. -/
def isWordChar (c : Nat) : Bool :=
  (48 ≤ c && c ≤ 57) || (65 ≤ c && c ≤ 90) || (97 ≤ c && c ≤ 122) || c == 95 ||
    (1040 ≤ c && c ≤ 1103) || c == 1025 || c == 1105 || c == 304

/-- Fragment of `str.lower` on one code point, over the same repertoire:
ASCII A-Z and Cyrillic А-Я (and Ё) map to their lowercase forms; the dotted
capital I (U+0130) maps to the TWO code points "i" followed by the combining
dot above (U+0307), CPython's special case; every other covered code point
is unchanged.  Lowercasing is one-to-many in Unicode, so the result is a
string, not a single code point. -/
def lowerChar (c : Nat) : List Nat :=
  if 65 ≤ c ∧ c ≤ 90 then [c + 32]
  else if 1040 ≤ c ∧ c ≤ 1071 then [c + 32]
  else if c = 1025 then [1105]
  else if c = 304 then [105, 775]
  else [c]

/-- `REGEX_NON_WORD.sub('', s)`: drop every character matched by `[\W_]`,
i.e. keep exactly the word characters that are not underscores. -/
def removeNonWord (s : PyStr) : PyStr :=
  s.filter (fun c => isWordChar c && c != 95)

/-- `str.lower` on a whole string. -/
def pyLower (s : PyStr) : PyStr := s.flatMap lowerChar

/-- `AnilibriaTracker.sanitize_quality` (anilibria.py lines 121-139):
`if quality_str: return REGEX_NON_WORD.sub('', quality_str).lower()` and
`return ''` otherwise (`None` and the empty string are falsy). -/
def sanitize_quality (quality_str : Option PyStr) : PyStr :=
  match quality_str with
  | none => []
  | some s => if s.isEmpty then [] else pyLower (removeNonWord s)

/-! ### Range regex and `to_tuple` (anilibria.py `REGEX_RANGE`, `to_tuple`) -/

/-- ASCII digit test, Python regex `\d` (ASCII fragment). -/
def isDigitCode (c : Nat) : Bool := 48 ≤ c && c ≤ 57

/-- `REGEX_RANGE.match(s)` truthiness for `REGEX_RANGE = re.compile(r'\d+-\d+')`:
`re.match` anchors at the start only, so it succeeds exactly when the string
BEGINS with one or more digits, a hyphen, and one or more digits; trailing
characters are not constrained. -/
def matchesRange (s : PyStr) : Bool :=
  let d1 := s.takeWhile isDigitCode
  let rest := s.drop d1.length
  !d1.isEmpty &&
    (match rest with
     | 45 :: rest2 => !(rest2.takeWhile isDigitCode).isEmpty
     | _ => false)

/-- Python `s.split('-')`: split on every hyphen, keeping empty pieces. -/
def splitOnDash : PyStr → List PyStr
  | [] => [[]]
  | c :: rest =>
    if c == 45 then [] :: splitOnDash rest
    else
      match splitOnDash rest with
      | h :: t => (c :: h) :: t
      | [] => [[c]]

/-- Digits-only string to its numeric value. -/
def digitsVal (s : PyStr) : Nat := s.foldl (fun acc c => acc * 10 + (c - 48)) 0

/-- Python whitespace test for `int()`'s surrounding-whitespace stripping. -/
def isSpaceCode (c : Nat) : Bool :=
  c == 32 || c == 9 || c == 10 || c == 13 || c == 11 || c == 12

/-- Strip leading and trailing whitespace. -/
def stripSpaces (s : PyStr) : PyStr :=
  ((s.dropWhile isSpaceCode).reverse.dropWhile isSpaceCode).reverse

/-- Nonempty all-digit string to a number, `none` otherwise. -/
def natOfDigits (s : PyStr) : Option Nat :=
  if s.isEmpty then none
  else if s.all isDigitCode then some (digitsVal s) else none

/-- Python `int(s)` on a string: optional surrounding whitespace, optional
sign, then decimal digits; anything else raises `ValueError`, modelled as
`none`.  (Python additionally accepts underscore digit grouping and non-ASCII
digits; those never occur in the inputs this development reasons about.) -/
def pyInt (s : PyStr) : Option Int :=
  let t := stripSpaces s
  match t with
  | 43 :: rest => (natOfDigits rest).map Int.ofNat
  | 45 :: rest => (natOfDigits rest).map (fun n => -(n : Int))
  | _ => (natOfDigits t).map Int.ofNat

/-- `AnilibriaTracker.to_tuple` (anilibria.py lines 141-152):
`tuple(map(int, range_str.split('-')))`.  `none` models the `ValueError`
raised by `int` on a non-numeric piece. -/
def to_tuple (range_str : PyStr) : Option (List Int) :=
  (splitOnDash range_str).mapM pyInt

/-! ### Release Selector (anilibria.py `find_available_qualities`, `get_download_link`) -/

/-- The Python exceptions the tracker code can raise: `KeyError` from a
missing JSON field, `ValueError` from `int()` on a non-numeric string,
`IndexError` from indexing an empty list. -/
inductive PyError
  | keyError
  | valueError
  | indexError
deriving DecidableEq

/-- Strict `<` on Python tuples of integers: lexicographic, a strict prefix
being smaller.  This is Python's tuple comparison, used by `sorted` through
the key function `to_tuple`. -/
def tupleIntLt : List Int → List Int → Bool
  | [], [] => false
  | [], _ :: _ => true
  | _ :: _, [] => false
  | a :: as, b :: bs => if a < b then true else if b < a then false else tupleIntLt as bs

/-- One step of a stable descending insertion sort on key-decorated series
strings: the new element `x` passes every element whose key is strictly
greater, and stops in front of the first element whose key is `≤` its own, so
earlier elements stay first among equal keys. -/
def insertDesc (x : PyStr × List Int) :
    List (PyStr × List Int) → List (PyStr × List Int)
  | [] => [x]
  | y :: ys => if tupleIntLt x.2 y.2 then y :: insertDesc x ys else x :: y :: ys

/-- `sorted(keys, key=self.to_tuple, reverse=True)` (anilibria.py line 100) on
key-decorated input.  Python's `sorted` is a stable sort; with
`reverse=True` it is stable descending, which a stable insertion sort
reproduces exactly. -/
def sortSeriesDesc (l : List (PyStr × List Int)) : List (PyStr × List Int) :=
  l.foldr insertDesc []

/-- Decorate each series string with `to_tuple` of it, as Python's `sorted`
computes the key of every element before comparing; the first `ValueError`
aborts the sort (`Except.error .valueError`). -/
def decorate : List PyStr → Except PyError (List (PyStr × List Int))
  | [] => .ok []
  | k :: ks =>
    match to_tuple k with
    | none => .error .valueError
    | some t =>
      match decorate ks with
      | .error e => .error e
      | .ok rest => .ok ((k, t) :: rest)

/-- Key order of a Python dict built by repeated insertion: first occurrence
order, duplicates dropped.  Models the key set of `series2torrents`
(a `defaultdict(list)` filled in torrent order). -/
def dedupFirst (l : List PyStr) : List PyStr :=
  l.foldl (fun acc s => if s ∈ acc then acc else acc ++ [s]) []

/-- Python dict assignment `d[k] = v`: replace the value in place when the
key is present (keeping the key's original position), append otherwise. -/
def dictInsert (d : List (PyStr × PyStr)) (k v : PyStr) : List (PyStr × PyStr) :=
  match d with
  | [] => [(k, v)]
  | (k', v') :: rest => if k' = k then (k, v) :: rest else (k', v') :: dictInsert rest k v

/-- Python dict lookup `d[k]` / `k in d`: first (unique) entry with key `k`. -/
def dictLookup (d : List (PyStr × PyStr)) (k : PyStr) : Option PyStr :=
  match d with
  | [] => none
  | (k', v') :: rest => if k' = k then some v' else dictLookup rest k

/-- One variant record from the tracker's JSON payload: the fields
`series`, `quality` (possibly `null`) and `url` used by the selector. -/
structure Torrent where
  series : PyStr
  quality : Option PyStr
  url : PyStr
deriving DecidableEq

/-- The tracker API's JSON response, as far as `find_available_qualities`
reads it: `json.get('status', False)` (`none` = field absent) and
`json['data']['torrents']` (`none` = path absent, a `KeyError` on access). -/
structure ApiJson where
  status : Option Bool
  torrents : Option (List Torrent)
deriving DecidableEq

/-- The loop `for torrent in series2torrents[sorted_series[0]]` building
`available_qualities` (anilibria.py lines 102-104): dict assignment
`available_qualities[quality] = HOST + torrent['url']` per variant. -/
def buildQualityDict (group : List Torrent) : List (PyStr × PyStr) :=
  group.foldl
    (fun d t => dictInsert d (sanitize_quality t.quality) (hostCodes ++ t.url)) []

/-- `AnilibriaTracker.find_available_qualities` (anilibria.py lines 74-106)
given the decoded JSON response.  Mirrors the source step by step: status
guard returning `{}`; `REGEX_RANGE.match` filter while grouping by the exact
series string; descending sort of the group keys by `to_tuple`
(a non-integer key raises `ValueError`); `sorted_series[0]` raising
`IndexError` on an empty key list; then the quality→link dict of the top
group. -/
def find_available_qualities (j : ApiJson) :
    Except PyError (List (PyStr × PyStr)) :=
  if (j.status.getD false) = false then .ok []
  else
    match j.torrents with
    | none => .error .keyError
    | some torrents =>
      let filtered := torrents.filter (fun t => matchesRange t.series)
      let keys := dedupFirst (filtered.map (fun t => t.series))
      match decorate keys with
      | .error e => .error e
      | .ok dec =>
        match (sortSeriesDesc dec).head? with
        | none => .error .indexError
        | some top =>
          .ok (buildQualityDict (filtered.filter (fun t => t.series = top.1)))

/-- The preference-normalisation loop of `get_download_link` (anilibria.py
lines 47-53): sanitize each preference in order, dropping duplicates after
normalisation while keeping first-seen order. -/
def normPrefs (prefs : List PyStr) : List PyStr :=
  prefs.foldl
    (fun acc p =>
      if sanitize_quality (some p) ∈ acc then acc
      else acc ++ [sanitize_quality (some p)]) []

/-- Modelled from the spec: the first normalized preference whose Quality Key
is present in the mapping (spec 4.2 step 7), used to compare the code's
selection against the spec's description. -/
def firstMatching (available : List (PyStr × PyStr)) : List PyStr → Option PyStr
  | [] => none
  | q :: qs => if (dictLookup available q).isSome then some q else firstMatching available qs

/-- The selection part of `AnilibriaTracker.get_download_link` (anilibria.py
lines 43-72), applied to the mapping computed by
`find_available_qualities`: the truthiness guard, the preference
normalisation, the `preferred_qualities` comprehension, the fallback to
`next(iter(available_qualities.items()))`, and the lookup of the first
preferred quality. -/
def selectLink (available : List (PyStr × PyStr)) (prefs : List PyStr) : PyStr :=
  if available.isEmpty then []
  else
    let quality_prefs := normPrefs prefs
    let preferred := quality_prefs.filter (fun q => (dictLookup available q).isSome)
    match preferred with
    | [] => ((available.head?).map (fun kv => kv.2)).getD []
    | q :: _ => (dictLookup available q).getD []

/-- `AnilibriaTracker.get_download_link` (anilibria.py lines 38-72) from the
decoded JSON response and the configured quality preferences: exceptions
from `find_available_qualities` propagate; otherwise the pure selection
runs. -/
def get_download_link (j : ApiJson) (quality_prefs : List PyStr) :
    Except PyError PyStr :=
  match find_available_qualities j with
  | .error e => .error e
  | .ok available => .ok (selectLink available quality_prefs)

/-! ### RPC Session (qbittorrent.py `QBittorrentRPC`) -/

/-- A raised `QBittorrentRPCException`, carrying its message. -/
inductive PyExn
  | rpcError : String → PyExn
deriving DecidableEq

/-- The mutable state of a `QBittorrentRPC` instance that the claims are
about: `self.cookies`, set to `{}` in `__init__` and reassigned only by
`login`.  A cookie jar is an association list; the empty jar is falsy. -/
structure QBSession where
  cookies : List (String × String)
deriving DecidableEq

/-- `QBittorrentRPC.__init__` (qbittorrent.py lines 41-61): `self.cookies = {}`. -/
def initSession : QBSession := { cookies := [] }

/-- The login HTTP response, as `login` reads it: `result.text` and
`result.cookies` (`none` models a `None` jar, which `requests` never actually
produces; `some []` is an empty jar). -/
structure LoginResponse where
  text : String
  cookies : Option (List (String × String))
deriving DecidableEq

/-- `QBittorrentRPC.login` (qbittorrent.py lines 63-81).  The transport
outcome of the login POST is passed in (`none` = the `query` call raised).
Returns the session state after the call and the raised exception, if any:
`if result.text != 'Ok.' or result.cookies is None: raise ...` else
`self.cookies = result.cookies`; every exception is re-raised as
`QBittorrentRPCException` and leaves `self.cookies` untouched. -/
def qbLogin (s : QBSession) (result : Option LoginResponse) :
    QBSession × Option PyExn :=
  match result with
  | none => (s, some (PyExn.rpcError "transport"))
  | some r =>
    if r.text = "Ok." ∧ r.cookies ≠ none then
      ({ cookies := r.cookies.getD [] }, none)
    else (s, some (PyExn.rpcError "Unable to auth credentials incorrect."))

/-- Modelled from the spec: the login success condition the spec states —
the exact success marker "Ok." in the body AND a non-empty session token
returned by the transport. -/
def loginSuccessSpec (r : LoginResponse) : Prop :=
  r.text = "Ok." ∧ ∃ jar, r.cookies = some jar ∧ jar ≠ []

/-- One observable HTTP call issued by the session layer: the login POST or
an action query. -/
inductive RpcCall
  | login
  | action : String → RpcCall
deriving DecidableEq

/-- `QBittorrentRPC.auth_query` (qbittorrent.py lines 142-147):
`if not self.cookies: self.login()` then `return self.query(data, files)`.
Yields the session state after the call, the trace of HTTP calls issued,
and the raised exception, if any (a failed login propagates before the
action query is issued).  `auth_query_json` (lines 149-156) has the same
guard, differing only in decoding the response. -/
def auth_query (s : QBSession) (loginResult : Option LoginResponse)
    (act : String) : QBSession × List RpcCall × Option PyExn :=
  if s.cookies.isEmpty then
    match qbLogin s loginResult with
    | (s', none) => (s', [RpcCall.login, RpcCall.action act], none)
    | (s', some e) => (s', [RpcCall.login], some e)
  else (s, [RpcCall.action act], none)

/-- The `api_map` dict of `QBittorrentRPC` (qbittorrent.py lines 22-30). -/
def api_map (key : String) : Option String :=
  if key = "login" then some "login"
  else if key = "api_version_path" then some "version/api"
  else if key = "add_torrent" then some "command/upload"
  else if key = "rem_torrent" then some "command/delete"
  else if key = "rem_torrent_with_data" then some "command/deletePerm"
  else if key = "get_torrent" then some "query/propertiesGeneral/%s"
  else if key = "get_torrents" then some "query/torrents"
  else none

/-- The params dict built by `QBittorrentRPC.build_params` (lines 83-91):
`{'action': action}` optionally updated with a `data` entry (the form body)
and an `action_params` entry (the `%s` substitution). -/
structure QBParams where
  action : String
  dataEntry : Option (List (String × String))
  actionParams : Option String
deriving DecidableEq

/-- `QBittorrentRPC.build_params(action, params)` for the two shapes of
`params` used by the derived operations: a `data` body or nothing. -/
def build_params (action : String) (dataEntry : Option (List (String × String))) :
    QBParams :=
  { action := action, dataEntry := dataEntry, actionParams := none }

/-- `QBittorrentRPC.get_request_url` (lines 93-102): the api_map segment,
with `%s` substituted from `action_params` when present (an unknown action
key raises `KeyError`; the operations modelled here use known keys only, so
the lookup is defaulted). -/
def get_request_url (params : QBParams) : String :=
  let segment := (api_map params.action).getD ""
  match params.actionParams with
  | some p => segment.replace "%s" p
  | none => segment

/-- The HTTP request that `QBittorrentRPC.query` (lines 104-140) issues:
URL from `get_request_url`; method GET by default, switched to POST when the
params dict carries a `data` entry or a `files` argument is present; the
`data` entry as the form body; the `files` argument as the multipart files
mapping; `self.cookies` attached. -/
structure QBRequest where
  url : String
  isPost : Bool
  dataField : Option (List (String × String))
  fileField : Option (List (String × String))
  cookiesSent : List (String × String)
deriving DecidableEq

/-- Request construction inside `QBittorrentRPC.query` (lines 104-126). -/
def query_request (s : QBSession) (data : QBParams)
    (files : Option (List (String × String))) : QBRequest :=
  { url := get_request_url data
    isPost := data.dataEntry.isSome || files.isSome
    dataField := data.dataEntry
    fileField := files
    cookiesSent := s.cookies }

/-- `QBittorrentRPC.method_add_torrent` (qbittorrent.py lines 186-193):
`file_data = {'torrents': torrent['torrent']}`, updated with a
`savepath` entry when `download_to` is given, then
`auth_query(build_params(action='add_torrent'), file_data)`.  The result is
the HTTP request that `query` issues for the upload action. -/
def method_add_torrent (s : QBSession) (torrentContent : String)
    (download_to : Option String) : QBRequest :=
  let file_data :=
    match download_to with
    | none => [("torrents", torrentContent)]
    | some p => [("torrents", torrentContent), ("savepath", p)]
  query_request s (build_params "add_torrent" none) (some file_data)

end Torrt

namespace Torrt

/-! ### Lemmas about the Quality Normalizer -/

theorem lowerChar_ascii_word (c : Nat) (hc : c < 128) (hw : isWordChar c = true)
    (hne : c ≠ 95) :
    ∃ c', lowerChar c = [c'] ∧ c' < 128 ∧ isWordChar c' = true ∧ c' ≠ 95 ∧
      lowerChar c' = [c'] := by
  simp only [isWordChar, Bool.or_eq_true, Bool.and_eq_true, decide_eq_true_eq,
    beq_iff_eq] at hw
  by_cases h1 : 65 ≤ c ∧ c ≤ 90
  · refine ⟨c + 32, ?_, by omega, ?_, by omega, ?_⟩
    · simp only [lowerChar]
      rw [if_pos h1]
    · simp only [isWordChar, Bool.or_eq_true, Bool.and_eq_true,
        decide_eq_true_eq, beq_iff_eq]
      omega
    · simp only [lowerChar]
      rw [if_neg (by omega), if_neg (by omega), if_neg (by omega),
        if_neg (by omega)]
  · refine ⟨c, ?_, hc, ?_, hne, ?_⟩
    · simp only [lowerChar]
      rw [if_neg h1, if_neg (by omega), if_neg (by omega), if_neg (by omega)]
    · simp only [isWordChar, Bool.or_eq_true, Bool.and_eq_true,
        decide_eq_true_eq, beq_iff_eq]
      omega
    · simp only [lowerChar]
      rw [if_neg h1, if_neg (by omega), if_neg (by omega), if_neg (by omega)]

theorem pyLower_fixed (l : PyStr) (h : ∀ c ∈ l, lowerChar c = [c]) :
    pyLower l = l := by
  induction l with
  | nil => rfl
  | cons c t ih =>
    show lowerChar c ++ pyLower t = c :: t
    rw [h c (List.mem_cons_self _ _),
      ih (fun c' hc' => h c' (List.mem_cons_of_mem _ hc'))]
    rfl

/-- C5 helper: on ASCII input every character surviving the first pass is a
word character fixed by lowercasing, so the core transform is idempotent. -/
theorem sanitizeCore_ascii_idem (s : PyStr) (hascii : ∀ c ∈ s, c < 128) :
    pyLower (removeNonWord (pyLower (removeNonWord s))) =
      pyLower (removeNonWord s) := by
  have hr : ∀ c' ∈ pyLower (removeNonWord s),
      (isWordChar c' && c' != 95) = true ∧ lowerChar c' = [c'] := by
    intro c' hc'
    obtain ⟨c, hcmem, hcin⟩ := List.mem_flatMap.mp hc'
    have hcf := List.mem_filter.mp hcmem
    obtain ⟨hw, hne⟩ := Bool.and_eq_true_iff.mp hcf.2
    obtain ⟨c'', heq, -, hw', hne', hfix⟩ :=
      lowerChar_ascii_word c (hascii c hcf.1) hw (by simpa using hne)
    rw [heq, List.mem_singleton] at hcin
    subst hcin
    refine ⟨?_, hfix⟩
    simp only [Bool.and_eq_true, bne_iff_ne, ne_eq]
    exact ⟨hw', hne'⟩
  have h1 : removeNonWord (pyLower (removeNonWord s)) =
      pyLower (removeNonWord s) := by
    unfold removeNonWord
    rw [List.filter_eq_self]
    intro a ha
    exact (hr a ha).1
  rw [h1]
  exact pyLower_fixed _ (fun c hc => (hr c hc).2)

/-- C5 counterexample: the normalizer is NOT idempotent on every input.  For
the dotted capital I (U+0130, code point 304) the first pass keeps the
letter (it is a word character) and `str.lower` turns it into "i" followed
by the combining dot above (U+0307, code point 775); the second pass strips
the combining mark, which is not a word character, so
`normalize(normalize("İ"))` = "i" differs from `normalize("İ")`. -/
theorem sanitize_quality_unicode_counterexample :
    sanitize_quality (some [304]) = [105, 775] ∧
    sanitize_quality (some (sanitize_quality (some [304]))) = [105] ∧
    ¬ (∀ q : Option PyStr,
        sanitize_quality (some (sanitize_quality q)) = sanitize_quality q) :=
  ⟨by decide, by decide,
    fun h =>
      (by decide :
        ¬ sanitize_quality (some (sanitize_quality (some [304]))) =
            sanitize_quality (some [304]))
      (h (some [304]))⟩

/-- C5 (amended): on ASCII input (every code point below 128) the quality
normalizer is idempotent; absent or empty input maps to the empty string;
and it is case- and separator-insensitive: "WEBRip 1080p", "WEBRip-1080p"
and "WEBRip_1080p" all normalize to "webrip1080p".  Unrestricted idempotence
fails on Unicode input such as U+0130, where lowercasing introduces a
combining mark that a second pass strips. -/
theorem sanitize_quality_ascii_idempotent_insensitive :
    (∀ q : Option PyStr, (∀ c ∈ q.getD [], c < 128) →
      sanitize_quality (some (sanitize_quality q)) = sanitize_quality q) ∧
    sanitize_quality none = [] ∧
    sanitize_quality (some []) = [] ∧
    sanitize_quality (some (codes "WEBRip 1080p")) = codes "webrip1080p" ∧
    sanitize_quality (some (codes "WEBRip-1080p")) = codes "webrip1080p" ∧
    sanitize_quality (some (codes "WEBRip_1080p")) = codes "webrip1080p" := by
  refine ⟨?_, rfl, rfl, by decide, by decide, by decide⟩
  intro q hq
  match q with
  | none => rfl
  | some s =>
    simp only [Option.getD_some] at hq
    simp only [sanitize_quality]
    by_cases hs : s.isEmpty = true
    · rw [if_pos hs]
      rfl
    · rw [if_neg hs]
      by_cases hr : (pyLower (removeNonWord s)).isEmpty = true
      · rw [if_pos hr, List.isEmpty_iff.mp hr]
      · rw [if_neg hr]
        exact sanitizeCore_ascii_idem s hq

/-- Witness for C5 (amended): idempotence applied at the ASCII input
"WEBRip 1080p". -/
theorem sanitize_quality_ascii_idempotent_insensitive_witness :
    sanitize_quality (some (sanitize_quality (some (codes "WEBRip 1080p")))) =
      sanitize_quality (some (codes "WEBRip 1080p")) :=
  sanitize_quality_ascii_idempotent_insensitive.1
    (some (codes "WEBRip 1080p")) (by decide)

/-! ### Lemmas about the series-range ranking -/

theorem tupleIntLt_irrefl (a : List Int) : tupleIntLt a a = false := by
  induction a with
  | nil => rfl
  | cons x xs ih => simp [tupleIntLt, ih]

theorem tupleIntLt_asymm {a b : List Int} (h : tupleIntLt a b = true) :
    tupleIntLt b a = false := by
  induction a generalizing b with
  | nil =>
    cases b with
    | nil => simp [tupleIntLt] at h
    | cons y ys => simp [tupleIntLt]
  | cons x xs ih =>
    cases b with
    | nil => simp [tupleIntLt] at h
    | cons y ys =>
      simp only [tupleIntLt] at h ⊢
      by_cases h1 : x < y
      · rw [if_neg (by omega), if_pos h1]
      · by_cases h2 : y < x
        · rw [if_neg h1, if_pos h2] at h
          simp at h
        · rw [if_neg h1, if_neg h2] at h
          rw [if_neg h2, if_neg h1]
          exact ih h

theorem tupleIntLt_neg_trans {a b c : List Int} (hab : tupleIntLt a b = false)
    (hbc : tupleIntLt b c = false) : tupleIntLt a c = false := by
  induction a generalizing b c with
  | nil =>
    cases b with
    | nil =>
      cases c with
      | nil => rfl
      | cons z zs => simp [tupleIntLt] at hbc
    | cons y ys => simp [tupleIntLt] at hab
  | cons x xs ih =>
    cases c with
    | nil => rfl
    | cons z zs =>
      cases b with
      | nil => simp [tupleIntLt] at hbc
      | cons y ys =>
        simp only [tupleIntLt] at hab hbc ⊢
        by_cases h1 : x < y
        · simp [h1] at hab
        · by_cases h2 : y < z
          · simp [h2] at hbc
          · have hxz : ¬ x < z := by omega
            rw [if_neg hxz]
            by_cases h3 : z < x
            · simp [h3]
            · rw [if_neg h3]
              have hyx : ¬ y < x := by omega
              have hzy : ¬ z < y := by omega
              rw [if_neg h1, if_neg hyx] at hab
              rw [if_neg h2, if_neg hzy] at hbc
              exact ih hab hbc

theorem mem_insertDesc {x z : PyStr × List Int} {l : List (PyStr × List Int)} :
    z ∈ insertDesc x l ↔ z = x ∨ z ∈ l := by
  induction l with
  | nil => simp [insertDesc]
  | cons y ys ih =>
    simp only [insertDesc]
    split
    · simp only [List.mem_cons, ih]
      try tauto
    · simp only [List.mem_cons]
      try tauto

theorem mem_sortSeriesDesc {z : PyStr × List Int} {l : List (PyStr × List Int)} :
    z ∈ sortSeriesDesc l ↔ z ∈ l := by
  induction l with
  | nil => simp [sortSeriesDesc]
  | cons x xs ih =>
    show z ∈ insertDesc x (sortSeriesDesc xs) ↔ _
    rw [mem_insertDesc, ih, List.mem_cons]
    try tauto

theorem pairwise_insertDesc {x : PyStr × List Int} {l : List (PyStr × List Int)}
    (h : l.Pairwise (fun a b => tupleIntLt a.2 b.2 = false)) :
    (insertDesc x l).Pairwise (fun a b => tupleIntLt a.2 b.2 = false) := by
  induction l with
  | nil => simp [insertDesc]
  | cons y ys ih =>
    rcases List.pairwise_cons.mp h with ⟨hy, hys⟩
    simp only [insertDesc]
    split
    · rename_i hlt
      refine List.pairwise_cons.mpr ⟨?_, ih hys⟩
      intro z hz
      rcases mem_insertDesc.mp hz with rfl | hz'
      · exact tupleIntLt_asymm hlt
      · exact hy z hz'
    · rename_i hnlt
      refine List.pairwise_cons.mpr ⟨?_, h⟩
      intro z hz
      have hxy : tupleIntLt x.2 y.2 = false := by
        simpa using hnlt
      rcases List.mem_cons.mp hz with rfl | hz'
      · exact hxy
      · exact tupleIntLt_neg_trans hxy (hy z hz')

theorem pairwise_sortSeriesDesc (l : List (PyStr × List Int)) :
    (sortSeriesDesc l).Pairwise (fun a b => tupleIntLt a.2 b.2 = false) := by
  induction l with
  | nil => simp [sortSeriesDesc]
  | cons x xs ih => exact pairwise_insertDesc ih

theorem decorate_correct (keys : List PyStr) (dec : List (PyStr × List Int))
    (h : decorate keys = .ok dec) : ∀ p ∈ dec, to_tuple p.1 = some p.2 := by
  induction keys generalizing dec with
  | nil =>
    simp only [decorate] at h
    cases h
    simp
  | cons k ks ih =>
    simp only [decorate] at h
    cases htt : to_tuple k with
    | none => rw [htt] at h; cases h
    | some t =>
      rw [htt] at h
      cases hrec : decorate ks with
      | error e => rw [hrec] at h; cases h
      | ok rest =>
        rw [hrec] at h
        cases h
        intro p hp
        rcases List.mem_cons.mp hp with rfl | hp'
        · exact htt
        · exact ih rest hrec p hp'

/-- C2: when every `series_range` group key parses under `to_tuple`
(`decorate` succeeds), the descending sort used by
`find_available_qualities` puts first a group that belongs to the input and
whose parsed integer tuple is numerically greatest (not below the tuple of
any group), with every group's sort key being the integer parse of its
string — numeric comparison, never string comparison. -/
theorem sortSeriesDesc_selects_numeric_max (keys : List PyStr)
    (dec : List (PyStr × List Int)) (hdec : decorate keys = .ok dec)
    (hne : dec ≠ []) :
    ∃ top rest, sortSeriesDesc dec = top :: rest ∧ top ∈ dec ∧
      (∀ p ∈ dec, tupleIntLt top.2 p.2 = false) ∧
      (∀ p ∈ dec, to_tuple p.1 = some p.2) := by
  have hcorr : ∀ p ∈ dec, to_tuple p.1 = some p.2 := decorate_correct keys dec hdec
  obtain ⟨d, ds, rfl⟩ := List.exists_cons_of_ne_nil hne
  have hdm : d ∈ sortSeriesDesc (d :: ds) :=
    mem_sortSeriesDesc.mpr (List.mem_cons_self d ds)
  obtain ⟨top, rest, heq⟩ :=
    List.exists_cons_of_ne_nil (List.ne_nil_of_mem hdm)
  refine ⟨top, rest, heq, ?_, ?_, hcorr⟩
  · exact mem_sortSeriesDesc.mp (heq ▸ List.mem_cons_self top rest)
  · intro p hp
    have hmem : p ∈ sortSeriesDesc (d :: ds) := mem_sortSeriesDesc.mpr hp
    rw [heq] at hmem
    rcases List.mem_cons.mp hmem with rfl | hp'
    · exact tupleIntLt_irrefl _
    · have hpw := pairwise_sortSeriesDesc (d :: ds)
      rw [heq] at hpw
      exact (List.pairwise_cons.mp hpw).1 p hp'

/-- Witness for C2: at the spec's groups "1-20" and "21-41" the selector
picks "21-41", and at "2-9" versus "10-19" it picks "10-19" (string
comparison would pick "2-9"). -/
theorem sortSeriesDesc_selects_numeric_max_witness :
    (∃ top rest,
      sortSeriesDesc [(codes "1-20", [1, 20]), (codes "21-41", [21, 41])] =
          top :: rest ∧
        top ∈ [(codes "1-20", [1, 20]), (codes "21-41", [21, 41])] ∧
        (∀ p ∈ [(codes "1-20", [1, 20]), (codes "21-41", [21, 41])],
          tupleIntLt top.2 p.2 = false) ∧
        (∀ p ∈ [(codes "1-20", [1, 20]), (codes "21-41", [21, 41])],
          to_tuple p.1 = some p.2)) ∧
    (sortSeriesDesc [(codes "1-20", [1, 20]), (codes "21-41", [21, 41])]).head? =
      some (codes "21-41", [21, 41]) ∧
    (sortSeriesDesc [(codes "2-9", [2, 9]), (codes "10-19", [10, 19])]).head? =
      some (codes "10-19", [10, 19]) :=
  ⟨sortSeriesDesc_selects_numeric_max [codes "1-20", codes "21-41"]
      [(codes "1-20", [1, 20]), (codes "21-41", [21, 41])] rfl (by decide),
    by decide, by decide⟩

/-! ### Lemmas about the quality→link dict -/

theorem dictLookup_dictInsert_self (d : List (PyStr × PyStr)) (k v : PyStr) :
    dictLookup (dictInsert d k v) k = some v := by
  induction d with
  | nil => simp [dictInsert, dictLookup]
  | cons kv rest ih =>
    obtain ⟨k', v'⟩ := kv
    simp only [dictInsert]
    by_cases h : k' = k
    · rw [if_pos h]
      simp [dictLookup]
    · rw [if_neg h]
      simp only [dictLookup]
      rw [if_neg h]
      exact ih

theorem dictLookup_dictInsert_ne (d : List (PyStr × PyStr)) (k v k' : PyStr)
    (h : k ≠ k') : dictLookup (dictInsert d k v) k' = dictLookup d k' := by
  induction d with
  | nil => simp [dictInsert, dictLookup, h]
  | cons kv rest ih =>
    obtain ⟨k0, v0⟩ := kv
    simp only [dictInsert]
    by_cases h0 : k0 = k
    · rw [if_pos h0]
      simp only [dictLookup]
      rw [if_neg h, if_neg (h0 ▸ h)]
    · rw [if_neg h0]
      simp only [dictLookup]
      by_cases h1 : k0 = k'
      · rw [if_pos h1, if_pos h1]
      · rw [if_neg h1, if_neg h1]
        exact ih

theorem dictLookup_mem {d : List (PyStr × PyStr)} {k v : PyStr}
    (h : dictLookup d k = some v) : (k, v) ∈ d := by
  induction d with
  | nil => simp [dictLookup] at h
  | cons kv rest ih =>
    obtain ⟨k', v'⟩ := kv
    simp only [dictLookup] at h
    by_cases h0 : k' = k
    · rw [if_pos h0] at h
      cases h
      simp [h0]
    · rw [if_neg h0] at h
      exact List.mem_cons_of_mem _ (ih h)

theorem mem_dictInsert {d : List (PyStr × PyStr)} {kv : PyStr × PyStr}
    {k v : PyStr} (h : kv ∈ dictInsert d k v) : kv = (k, v) ∨ kv ∈ d := by
  induction d with
  | nil => simpa [dictInsert] using h
  | cons kv0 rest ih =>
    obtain ⟨k0, v0⟩ := kv0
    simp only [dictInsert] at h
    by_cases h0 : k0 = k
    · rw [if_pos h0] at h
      rcases List.mem_cons.mp h with rfl | h'
      · exact Or.inl rfl
      · exact Or.inr (List.mem_cons_of_mem _ h')
    · rw [if_neg h0] at h
      rcases List.mem_cons.mp h with rfl | h'
      · exact Or.inr (List.mem_cons_self _ _)
      · rcases ih h' with h'' | h''
        · exact Or.inl h''
        · exact Or.inr (List.mem_cons_of_mem _ h'')

/-- The dict-building fold step of `find_available_qualities`. -/
theorem mem_buildQualityDict_aux (g : List Torrent) :
    ∀ (d : List (PyStr × PyStr)) (kv : PyStr × PyStr),
      kv ∈ g.foldl
          (fun d t =>
            dictInsert d (sanitize_quality t.quality) (hostCodes ++ t.url)) d →
      kv ∈ d ∨ ∃ t ∈ g, kv = (sanitize_quality t.quality, hostCodes ++ t.url) := by
  induction g with
  | nil =>
    intro d kv h
    exact Or.inl h
  | cons t ts ih =>
    intro d kv h
    simp only [List.foldl_cons] at h
    rcases ih _ kv h with h' | ⟨u, hu, rfl⟩
    · rcases mem_dictInsert h' with rfl | h''
      · exact Or.inr ⟨t, List.mem_cons_self t ts, rfl⟩
      · exact Or.inl h''
    · exact Or.inr ⟨u, List.mem_cons_of_mem _ hu, rfl⟩

theorem mem_buildQualityDict {g : List Torrent} {kv : PyStr × PyStr}
    (h : kv ∈ buildQualityDict g) :
    ∃ t ∈ g, kv = (sanitize_quality t.quality, hostCodes ++ t.url) := by
  rcases mem_buildQualityDict_aux g [] kv h with h' | h'
  · simp at h'
  · exact h'

theorem dictLookup_foldl_no_match (g : List Torrent) (k : PyStr) :
    ∀ d : List (PyStr × PyStr),
      (∀ t ∈ g, sanitize_quality t.quality ≠ k) →
      dictLookup
          (g.foldl
            (fun d t =>
              dictInsert d (sanitize_quality t.quality) (hostCodes ++ t.url)) d) k =
        dictLookup d k := by
  induction g with
  | nil =>
    intro d _
    rfl
  | cons t ts ih =>
    intro d hno
    simp only [List.foldl_cons]
    rw [ih _ (fun u hu => hno u (List.mem_cons_of_mem _ hu))]
    exact dictLookup_dictInsert_ne d _ _ k (hno t (List.mem_cons_self t ts))

/-- C6: within the selected series group, when a later variant `t₂` shares its
normalized Quality Key with an earlier variant `t₁`, the quality→link mapping
keeps the later variant's link: the lookup of that key yields
`HOST + t₂.url`, the earlier link being overwritten. -/
theorem buildQualityDict_last_write_wins (g₁ g₂ g₃ : List Torrent)
    (t₁ t₂ : Torrent)
    (_hq : sanitize_quality t₁.quality = sanitize_quality t₂.quality)
    (hafter : ∀ t ∈ g₃, sanitize_quality t.quality ≠ sanitize_quality t₂.quality) :
    dictLookup (buildQualityDict (g₁ ++ t₁ :: g₂ ++ t₂ :: g₃))
        (sanitize_quality t₂.quality) =
      some (hostCodes ++ t₂.url) := by
  simp only [buildQualityDict, List.foldl_append, List.foldl_cons]
  rw [dictLookup_foldl_no_match g₃ _ _ hafter]
  exact dictLookup_dictInsert_self _ _ _

/-- Witness for C6: two variants of the selected group "1-12" whose labels
"WEBRip 720p" and "WEBRip-720P" normalize to the same key; the mapping holds
the second variant's link. -/
theorem buildQualityDict_last_write_wins_witness :
    sanitize_quality (some (codes "WEBRip 720p")) =
        sanitize_quality (some (codes "WEBRip-720P")) ∧
      dictLookup
          (buildQualityDict
            [⟨codes "1-12", some (codes "WEBRip 720p"), codes "/old"⟩,
             ⟨codes "1-12", some (codes "WEBRip-720P"), codes "/new"⟩])
          (sanitize_quality (some (codes "WEBRip-720P"))) =
        some (hostCodes ++ codes "/new") :=
  ⟨by decide,
    buildQualityDict_last_write_wins [] []
      [] ⟨codes "1-12", some (codes "WEBRip 720p"), codes "/old"⟩
      ⟨codes "1-12", some (codes "WEBRip-720P"), codes "/new"⟩
      (by decide) (by simp)⟩

/-! ### Lemmas about preference resolution -/

theorem filter_head_firstMatching (available : List (PyStr × PyStr)) :
    ∀ qs : List PyStr,
      (qs.filter (fun q => (dictLookup available q).isSome)).head? =
        firstMatching available qs := by
  intro qs
  induction qs with
  | nil => rfl
  | cons q qs ih =>
    simp only [List.filter_cons, firstMatching]
    by_cases h : (dictLookup available q).isSome = true
    · rw [if_pos h, if_pos h]
      rfl
    · rw [if_neg h, if_neg h]
      exact ih

theorem firstMatching_lookup {available : List (PyStr × PyStr)} :
    ∀ {qs q}, firstMatching available qs = some q →
      ∃ v, dictLookup available q = some v := by
  intro qs
  induction qs with
  | nil =>
    intro q h
    simp [firstMatching] at h
  | cons p ps ih =>
    intro q h
    simp only [firstMatching] at h
    by_cases hp : (dictLookup available p).isSome = true
    · rw [if_pos hp] at h
      cases h
      exact Option.isSome_iff_exists.mp hp
    · rw [if_neg hp] at h
      exact ih h

theorem normPrefs_aux_mem (l : List PyStr) :
    ∀ (acc : List PyStr) (q : PyStr),
      q ∈ l.foldl
          (fun acc p =>
            if sanitize_quality (some p) ∈ acc then acc
            else acc ++ [sanitize_quality (some p)]) acc ↔
        q ∈ acc ∨ ∃ p ∈ l, q = sanitize_quality (some p) := by
  induction l with
  | nil =>
    intro acc q
    simp
  | cons p ps ih =>
    intro acc q
    simp only [List.foldl_cons]
    by_cases h : sanitize_quality (some p) ∈ acc
    · rw [if_pos h, ih acc q]
      constructor
      · rintro (hacc | ⟨p', hp', rfl⟩)
        · exact Or.inl hacc
        · exact Or.inr ⟨p', List.mem_cons_of_mem _ hp', rfl⟩
      · rintro (hacc | ⟨p', hp', rfl⟩)
        · exact Or.inl hacc
        · rcases List.mem_cons.mp hp' with rfl | hp''
          · exact Or.inl h
          · exact Or.inr ⟨p', hp'', rfl⟩
    · rw [if_neg h, ih (acc ++ [sanitize_quality (some p)]) q]
      simp only [List.mem_append, List.mem_singleton]
      constructor
      · rintro ((hacc | rfl) | ⟨p', hp', rfl⟩)
        · exact Or.inl hacc
        · exact Or.inr ⟨p, List.mem_cons_self _ _, rfl⟩
        · exact Or.inr ⟨p', List.mem_cons_of_mem _ hp', rfl⟩
      · rintro (hacc | ⟨p', hp', rfl⟩)
        · exact Or.inl (Or.inl hacc)
        · rcases List.mem_cons.mp hp' with rfl | hp''
          · exact Or.inl (Or.inr rfl)
          · exact Or.inr ⟨p', hp'', rfl⟩

theorem normPrefs_aux_nodup (l : List PyStr) :
    ∀ acc : List PyStr, acc.Nodup →
      (l.foldl
        (fun acc p =>
          if sanitize_quality (some p) ∈ acc then acc
          else acc ++ [sanitize_quality (some p)]) acc).Nodup := by
  induction l with
  | nil =>
    intro acc hacc
    exact hacc
  | cons p ps ih =>
    intro acc hacc
    simp only [List.foldl_cons]
    by_cases h : sanitize_quality (some p) ∈ acc
    · rw [if_pos h]
      exact ih acc hacc
    · rw [if_neg h]
      refine ih _ ?_
      rw [List.nodup_append]
      refine ⟨hacc, List.nodup_singleton _, ?_⟩
      intro a ha has
      rw [List.mem_singleton] at has
      subst has
      exact h ha

/-- C3: on a non-empty quality→link mapping, `get_download_link`'s selection
normalizes the preferences in order (duplicates after normalization dropped,
first-seen order kept: the normalized list is duplicate-free and holds
exactly the normalized preferences) and returns the link of the first
normalized preference present in the mapping; when no preference matches it
returns the link of the first entry of the mapping in insertion order, and in
every case the result is drawn from the mapping's values. -/
theorem selectLink_preference_resolution (available : List (PyStr × PyStr))
    (prefs : List PyStr) (h : available ≠ []) :
    (∀ q, firstMatching available (normPrefs prefs) = some q →
        ∃ v, dictLookup available q = some v ∧ selectLink available prefs = v) ∧
    (firstMatching available (normPrefs prefs) = none →
        ∃ kv, available.head? = some kv ∧ selectLink available prefs = kv.2) ∧
    selectLink available prefs ∈ available.map (fun kv => kv.2) ∧
    (normPrefs prefs).Nodup ∧
    (∀ q, q ∈ normPrefs prefs ↔ ∃ p ∈ prefs, q = sanitize_quality (some p)) := by
  obtain ⟨kv0, rest0, rfl⟩ := List.exists_cons_of_ne_nil h
  have hsel : selectLink (kv0 :: rest0) prefs =
      match (normPrefs prefs).filter
          (fun q => (dictLookup (kv0 :: rest0) q).isSome) with
      | [] => kv0.2
      | q :: _ => (dictLookup (kv0 :: rest0) q).getD [] := rfl
  have h1 : ∀ q, firstMatching (kv0 :: rest0) (normPrefs prefs) = some q →
      ∃ v, dictLookup (kv0 :: rest0) q = some v ∧
        selectLink (kv0 :: rest0) prefs = v := by
    intro q hq
    have hhead := filter_head_firstMatching (kv0 :: rest0) (normPrefs prefs)
    rw [hq] at hhead
    obtain ⟨v, hv⟩ := firstMatching_lookup hq
    cases hflt : (normPrefs prefs).filter
        (fun q => (dictLookup (kv0 :: rest0) q).isSome) with
    | nil =>
      rw [hflt] at hhead
      simp at hhead
    | cons q0 qt =>
      rw [hflt] at hhead
      simp only [List.head?_cons, Option.some_inj] at hhead
      refine ⟨v, hv, ?_⟩
      rw [hsel, hflt]
      show (dictLookup (kv0 :: rest0) q0).getD [] = v
      rw [hhead, hv]
      rfl
  have h2 : firstMatching (kv0 :: rest0) (normPrefs prefs) = none →
      ∃ kv, (kv0 :: rest0).head? = some kv ∧
        selectLink (kv0 :: rest0) prefs = kv.2 := by
    intro hnone
    have hhead := filter_head_firstMatching (kv0 :: rest0) (normPrefs prefs)
    rw [hnone, List.head?_eq_none_iff] at hhead
    exact ⟨kv0, rfl, by rw [hsel, hhead]⟩
  refine ⟨h1, h2, ?_, normPrefs_aux_nodup prefs [] List.nodup_nil, ?_⟩
  · cases hfm : firstMatching (kv0 :: rest0) (normPrefs prefs) with
    | none =>
      obtain ⟨kv, hkv, hres⟩ := h2 hfm
      have hkvmem : kv ∈ kv0 :: rest0 := List.mem_of_mem_head? (by rw [hkv]; rfl)
      rw [hres]
      exact List.mem_map.mpr ⟨kv, hkvmem, rfl⟩
    | some q =>
      obtain ⟨v, hv, hres⟩ := h1 q hfm
      rw [hres]
      exact List.mem_map.mpr ⟨(q, v), dictLookup_mem hv, rfl⟩
  · intro q
    have := normPrefs_aux_mem prefs [] q
    simpa [normPrefs] using this

/-- Witness for C3 at the spec's example: available qualities
`hdtvrip1080p ↦ L1, webrip720p ↦ L2` with preferences
`WEBRip 720p, HDTVRip 1080p` select `L2`; with preference `BDRip` (no
overlap) the fallback returns `L1`, the first entry's link. -/
theorem selectLink_preference_resolution_witness :
    selectLink [(codes "hdtvrip1080p", codes "L1"), (codes "webrip720p", codes "L2")]
        [codes "WEBRip 720p", codes "HDTVRip 1080p"] = codes "L2" ∧
      selectLink
          [(codes "hdtvrip1080p", codes "L1"), (codes "webrip720p", codes "L2")]
          [codes "BDRip"] = codes "L1" ∧
      selectLink
          [(codes "hdtvrip1080p", codes "L1"), (codes "webrip720p", codes "L2")]
          [codes "BDRip"] ∈
        [(codes "hdtvrip1080p", codes "L1"),
          (codes "webrip720p", codes "L2")].map (fun kv => kv.2) := by
  refine ⟨by decide, by decide, ?_⟩
  exact (selectLink_preference_resolution
    [(codes "hdtvrip1080p", codes "L1"), (codes "webrip720p", codes "L2")]
    [codes "BDRip"] (by decide)).2.2.1

theorem selectLink_mem_values (available : List (PyStr × PyStr))
    (prefs : List PyStr) :
    selectLink available prefs = [] ∨
      selectLink available prefs ∈ available.map (fun kv => kv.2) := by
  cases available with
  | nil => exact Or.inl rfl
  | cons kv0 rest0 =>
    right
    have hsel : selectLink (kv0 :: rest0) prefs =
        match (normPrefs prefs).filter
            (fun q => (dictLookup (kv0 :: rest0) q).isSome) with
        | [] => kv0.2
        | q :: _ => (dictLookup (kv0 :: rest0) q).getD [] := rfl
    cases hflt : (normPrefs prefs).filter
        (fun q => (dictLookup (kv0 :: rest0) q).isSome) with
    | nil =>
      rw [hsel, hflt]
      exact List.mem_map.mpr ⟨kv0, List.mem_cons_self _ _, rfl⟩
    | cons q0 qt =>
      rw [hsel, hflt]
      have hq0 : q0 ∈ (normPrefs prefs).filter
          (fun q => (dictLookup (kv0 :: rest0) q).isSome) := by
        rw [hflt]
        exact List.mem_cons_self _ _
      have hpred := (List.mem_filter.mp hq0).2
      obtain ⟨v, hv⟩ := Option.isSome_iff_exists.mp hpred
      show (dictLookup (kv0 :: rest0) q0).getD [] ∈ _
      rw [hv]
      exact List.mem_map.mpr ⟨(q0, v), dictLookup_mem hv, rfl⟩

/-- C10: every non-empty link returned by `get_download_link` is
`HOST + url` for the relative `url` field of one of the reported torrent
variants — an absolute URL with the tracker host prefixed, never a bare
relative link. -/
theorem get_download_link_absolute (j : ApiJson) (prefs : List PyStr)
    (link : PyStr) (hok : get_download_link j prefs = .ok link)
    (hne : link ≠ []) :
    ∃ t ∈ j.torrents.getD [], link = hostCodes ++ t.url := by
  simp only [get_download_link] at hok
  cases hfind : find_available_qualities j with
  | error e => rw [hfind] at hok; cases hok
  | ok available =>
    rw [hfind] at hok
    simp only [Except.ok.injEq] at hok
    subst hok
    simp only [find_available_qualities] at hfind
    by_cases hst : (j.status.getD false) = false
    · rw [if_pos hst] at hfind
      simp only [Except.ok.injEq] at hfind
      subst hfind
      exact absurd rfl hne
    · rw [if_neg hst] at hfind
      cases hts : j.torrents with
      | none => rw [hts] at hfind; cases hfind
      | some torrents =>
        rw [hts] at hfind
        simp only [] at hfind
        cases hdec : decorate (dedupFirst
            ((torrents.filter (fun t => matchesRange t.series)).map
              (fun t => t.series))) with
        | error e => rw [hdec] at hfind; cases hfind
        | ok dec =>
          rw [hdec] at hfind
          simp only [] at hfind
          cases hhd : (sortSeriesDesc dec).head? with
          | none => rw [hhd] at hfind; cases hfind
          | some top =>
            rw [hhd] at hfind
            simp only [Except.ok.injEq] at hfind
            subst hfind
            rcases selectLink_mem_values
                (buildQualityDict
                  ((torrents.filter (fun t => matchesRange t.series)).filter
                    (fun t => t.series = top.1))) prefs with h0 | hmem
            · exact absurd h0 hne
            · obtain ⟨kv, hkv, hkv2⟩ := List.mem_map.mp hmem
              obtain ⟨t, ht, hteq⟩ := mem_buildQualityDict hkv
              refine ⟨t, ?_, ?_⟩
              · simp only [Option.getD_some]
                exact (List.mem_filter.mp (List.mem_filter.mp ht).1).1
              · rw [← hkv2, hteq]

/-- Witness for C10 at a concrete two-variant response: the returned link is
the host-prefixed url of a reported variant. -/
theorem get_download_link_absolute_witness :
    ∃ t ∈ (ApiJson.mk (some true)
        (some [⟨codes "1-20", some (codes "WEBRip 720p"), codes "/a"⟩,
          ⟨codes "21-41", some (codes "WEBRip 720p"), codes "/b"⟩])).torrents.getD [],
      hostCodes ++ codes "/b" = hostCodes ++ t.url :=
  get_download_link_absolute
    { status := some true
      torrents := some [⟨codes "1-20", some (codes "WEBRip 720p"), codes "/a"⟩,
        ⟨codes "21-41", some (codes "WEBRip 720p"), codes "/b"⟩] }
    [codes "WEBRip 720p"] (hostCodes ++ codes "/b") rfl (by decide)

/-- C1: behaviour on empty or malformed tracker responses.  When the JSON
`status` field is false or absent, `get_download_link` returns the empty
string and raises nothing; but when `status` is true and the reported
torrent list yields no usable candidates (empty list, or every entry
rejected by the range filter), the code raises `IndexError` at
`sorted_series[0]` instead of returning the empty string — and a true status
without the `data.torrents` path raises `KeyError`. -/
theorem get_download_link_no_candidates :
    get_download_link { status := some false, torrents := some [] } [] = .ok [] ∧
    get_download_link { status := none, torrents := some [] } [] = .ok [] ∧
    get_download_link { status := some true, torrents := some [] } [] =
      .error .indexError ∧
    get_download_link
        { status := some true
          torrents := some [⟨codes "trailer", none, codes "/t"⟩] } [] =
      .error .indexError ∧
    get_download_link { status := some true, torrents := none } [] =
      .error .keyError :=
  ⟨rfl, rfl, rfl, rfl, rfl⟩

/-- C4: a malformed series range that survives the filter step crashes
quality resolution.  `REGEX_RANGE.match` anchors only at the start, so
"1-20xyz" passes the filter; `to_tuple` then calls `int("20xyz")`, which
raises `ValueError`, and `find_available_qualities` throws instead of
excluding the group. -/
theorem find_available_qualities_malformed_range_raises :
    matchesRange (codes "1-20xyz") = true ∧
    to_tuple (codes "1-20xyz") = none ∧
    find_available_qualities
        { status := some true
          torrents := some
            [⟨codes "1-20xyz", some (codes "HDTVRip 1080p"), codes "/t1"⟩] } =
      .error .valueError :=
  ⟨by decide, by decide, rfl⟩

/-! ### RPC session claims -/

/-- C7: a freshly constructed session is Unauthenticated (empty cookie
store); the first derived operation issues exactly one login call before its
own request; any operation on a session whose stored cookies are non-empty
issues zero additional login calls. -/
theorem auth_query_login_discipline :
    initSession.cookies = [] ∧
    (∀ (r : LoginResponse) (act : String),
      (qbLogin initSession (some r)).2 = none →
      (auth_query initSession (some r) act).2.1 =
        [RpcCall.login, RpcCall.action act]) ∧
    (∀ (s : QBSession) (lr : Option LoginResponse) (act : String),
      s.cookies ≠ [] →
      auth_query s lr act = (s, [RpcCall.action act], none)) := by
  refine ⟨rfl, ?_, ?_⟩
  · intro r act hok
    rcases hlog : qbLogin initSession (some r) with ⟨s', e⟩
    rw [hlog] at hok
    change e = none at hok
    subst hok
    simp only [auth_query]
    rw [if_pos (by rfl), hlog]
  · intro s lr act hns
    have hne : ¬ (s.cookies.isEmpty = true) := by
      cases hc : s.cookies with
      | nil => exact absurd hc hns
      | cons a l => simp
    simp only [auth_query]
    rw [if_neg hne]

/-- Witness for C7: one successful first call issues login then the action;
a second call on the authenticated session issues the action alone. -/
theorem auth_query_login_discipline_witness :
    (auth_query initSession (some ⟨"Ok.", some [("SID", "token")]⟩)
          "get_torrents").2.1 =
        [RpcCall.login, RpcCall.action "get_torrents"] ∧
      auth_query { cookies := [("SID", "token")] } none "api_version_path" =
        ({ cookies := [("SID", "token")] },
          [RpcCall.action "api_version_path"], none) :=
  ⟨auth_query_login_discipline.2.1 ⟨"Ok.", some [("SID", "token")]⟩
      "get_torrents" (by decide),
    auth_query_login_discipline.2.2 { cookies := [("SID", "token")] } none
      "api_version_path" (by decide)⟩

/-- C8 counterexample: the claim "the token is stored exactly when the body
is Ok. and a NON-EMPTY token is returned, every other outcome raising" is
false: a response with body "Ok." and an empty (but present) cookie jar
makes `login` succeed without raising, because the code checks
`result.cookies is None`, not emptiness. -/
theorem qbLogin_empty_jar_counterexample :
    ¬ (∀ (s : QBSession) (r : LoginResponse),
        (qbLogin s (some r)).2 = none → loginSuccessSpec r) := by
  intro h
  obtain ⟨-, jar, hj, hnej⟩ := h initSession ⟨"Ok.", some []⟩ (by decide)
  apply hnej
  have : (some [] : Option (List (String × String))) = some jar := hj
  simpa using this.symm

/-- C8 amended: `login` succeeds (raises nothing) exactly when the response
body is "Ok." and the transport returned a cookie jar object — present but
possibly empty, since the code checks `is None`, not emptiness; on success
the returned jar is stored, and on every failing outcome (wrong marker,
missing jar, transport error) an authentication error is raised and the
stored cookies are left unchanged. -/
theorem qbLogin_success_condition (s : QBSession)
    (result : Option LoginResponse) :
    ((qbLogin s result).2 = none ↔
      ∃ r, result = some r ∧ r.text = "Ok." ∧ r.cookies ≠ none) ∧
    (∀ r, result = some r → (qbLogin s result).2 = none →
      (qbLogin s result).1.cookies = r.cookies.getD []) ∧
    ((qbLogin s result).2 ≠ none → (qbLogin s result).1 = s) := by
  cases result with
  | none =>
    refine ⟨?_, ?_, fun _ => rfl⟩
    · simp [qbLogin]
    · intro r hr
      cases hr
  | some r =>
    by_cases hc : r.text = "Ok." ∧ r.cookies ≠ none
    · have hq : qbLogin s (some r) = ({ cookies := r.cookies.getD [] }, none) := by
        simp only [qbLogin]
        rw [if_pos hc]
      refine ⟨?_, ?_, ?_⟩
      · rw [hq]
        simp only [true_iff]
        exact ⟨r, rfl, hc⟩
      · intro r' hr' _
        cases hr'
        rw [hq]
      · intro hne
        rw [hq] at hne
        simp at hne
    · have hq : qbLogin s (some r) =
          (s, some (PyExn.rpcError "Unable to auth credentials incorrect.")) := by
        simp only [qbLogin]
        rw [if_neg hc]
      refine ⟨?_, ?_, ?_⟩
      · rw [hq]
        constructor
        · intro habs
          exact absurd habs (by simp)
        · rintro ⟨r', hr', ht, hcn⟩
          cases hr'
          exact absurd ⟨ht, hcn⟩ hc
      · intro r' hr' habs
        cases hr'
        rw [hq] at habs
        cases habs
      · intro _
        rw [hq]

/-- Witness for C8 (amended): a successful login stores the returned jar; a
wrong-marker login raises and leaves the stored cookies unchanged. -/
theorem qbLogin_success_condition_witness :
    (qbLogin { cookies := [("old", "x")] }
          (some ⟨"Ok.", some [("SID", "t")]⟩)).2 = none ∧
      (qbLogin { cookies := [("old", "x")] }
          (some ⟨"Ok.", some [("SID", "t")]⟩)).1.cookies =
        (some [("SID", "t")]).getD [] ∧
      (qbLogin { cookies := [("old", "x")] } (some ⟨"Wrong", some []⟩)).1 =
        { cookies := [("old", "x")] } :=
  ⟨(qbLogin_success_condition { cookies := [("old", "x")] }
        (some ⟨"Ok.", some [("SID", "t")]⟩)).1.mpr
      ⟨⟨"Ok.", some [("SID", "t")]⟩, rfl, rfl, by decide⟩,
    (qbLogin_success_condition { cookies := [("old", "x")] }
        (some ⟨"Ok.", some [("SID", "t")]⟩)).2.1
      ⟨"Ok.", some [("SID", "t")]⟩ rfl (by decide),
    (qbLogin_success_condition { cookies := [("old", "x")] }
        (some ⟨"Wrong", some []⟩)).2.2 (by decide)⟩

/-- C9 counterexample: the claim that a given download target path is sent
as a form field (request data) is false — the request built for a concrete
upload carries no form data at all (the path lands in the multipart files
mapping instead). -/
theorem method_add_torrent_savepath_counterexample :
    ¬ (∀ (s : QBSession) (content path : String),
        ("savepath", path) ∈
          ((method_add_torrent s content (some path)).dataField.getD [])) := by
  intro h
  exact
    (by decide :
      ¬ ("savepath", "/downloads") ∈
          ((method_add_torrent initSession "RAW"
              (some "/downloads")).dataField.getD []))
    (h initSession "RAW" "/downloads")

/-- C9 amended: `add_torrent` issues a POST with the raw torrent content as
the multipart file entry "torrents"; a given download target path is added
to the same multipart files mapping under key "savepath" — it is sent as a
multipart part, not as a form-data field: the request's form data stays
absent. -/
theorem method_add_torrent_request_shape (s : QBSession) (content : String)
    (download_to : Option String) :
    (method_add_torrent s content download_to).isPost = true ∧
    (method_add_torrent s content download_to).dataField = none ∧
    ("torrents", content) ∈
      ((method_add_torrent s content download_to).fileField.getD []) ∧
    (∀ p, download_to = some p →
      ("savepath", p) ∈
        ((method_add_torrent s content download_to).fileField.getD [])) ∧
    (download_to = none →
      (method_add_torrent s content download_to).fileField =
        some [("torrents", content)]) ∧
    (method_add_torrent s content download_to).url = "command/upload" := by
  cases download_to with
  | none =>
    refine ⟨rfl, rfl, ?_, ?_, fun _ => rfl, rfl⟩
    · exact List.mem_singleton.mpr rfl
    · intro p hp
      cases hp
  | some p0 =>
    refine ⟨rfl, rfl, ?_, ?_, ?_, rfl⟩
    · exact List.mem_cons_self _ _
    · intro p hp
      cases hp
      exact List.mem_cons_of_mem _ (List.mem_singleton.mpr rfl)
    · intro hp
      cases hp

/-- Witness for C9 (amended): the upload request for content "RAW" and
target "/downloads" is a POST whose files mapping holds both entries and
whose form data is absent. -/
theorem method_add_torrent_request_shape_witness :
    ("torrents", "RAW") ∈
        ((method_add_torrent initSession "RAW"
            (some "/downloads")).fileField.getD []) ∧
      ("savepath", "/downloads") ∈
        ((method_add_torrent initSession "RAW"
            (some "/downloads")).fileField.getD []) ∧
      (method_add_torrent initSession "RAW" none).fileField =
        some [("torrents", "RAW")] ∧
      (method_add_torrent initSession "RAW" (some "/downloads")).isPost = true ∧
      (method_add_torrent initSession "RAW" (some "/downloads")).dataField = none :=
  ⟨(method_add_torrent_request_shape initSession "RAW" (some "/downloads")).2.2.1,
    (method_add_torrent_request_shape initSession "RAW"
        (some "/downloads")).2.2.2.1 "/downloads" rfl,
    (method_add_torrent_request_shape initSession "RAW" none).2.2.2.2.1 rfl,
    (method_add_torrent_request_shape initSession "RAW" (some "/downloads")).1,
    (method_add_torrent_request_shape initSession "RAW" (some "/downloads")).2.1⟩

example : sanitize_quality (some (codes "WEBRip 1080p")) = codes "webrip1080p" := by decide
example : sanitize_quality (some (codes "WEBRip-1080p")) = codes "webrip1080p" := by decide
example : sanitize_quality none = [] := by decide
example : to_tuple (codes "1-10") = some [1, 10] := by decide
example : to_tuple (codes "1-20xyz") = none := by decide
example : matchesRange (codes "1-20xyz") = true := by decide
example : matchesRange (codes "trailer") = false := by decide

example :
    sortSeriesDesc [(codes "1-20", [1, 20]), (codes "21-41", [21, 41])] =
      [(codes "21-41", [21, 41]), (codes "1-20", [1, 20])] := by decide

example :
    sortSeriesDesc [(codes "2-9", [2, 9]), (codes "10-19", [10, 19])] =
      [(codes "10-19", [10, 19]), (codes "2-9", [2, 9])] := by decide

example :
    find_available_qualities { status := some true, torrents := some [] } =
      .error .indexError := rfl

example :
    find_available_qualities { status := some false, torrents := none } = .ok [] := rfl

example :
    find_available_qualities
      { status := some true
        torrents := some [⟨codes "1-20xyz", some (codes "HDTVRip 1080p"), codes "/t1"⟩] } =
      .error .valueError := rfl

example :
    selectLink [(codes "hdtvrip1080p", codes "L1"), (codes "webrip720p", codes "L2")]
      [codes "WEBRip 720p", codes "HDTVRip 1080p"] = codes "L2" := by decide

example :
    selectLink [(codes "hdtvrip1080p", codes "L1"), (codes "webrip720p", codes "L2")]
      [codes "BDRip"] = codes "L1" := by decide

example :
    get_download_link
      { status := some true
        torrents := some
          [⟨codes "1-20", some (codes "WEBRip 720p"), codes "/a"⟩,
           ⟨codes "21-41", some (codes "WEBRip 720p"), codes "/b"⟩] }
      [codes "WEBRip 720p"] = .ok (hostCodes ++ codes "/b") := rfl

example : (qbLogin initSession (some ⟨"Ok.", some []⟩)).2 = none := by decide

example :
    qbLogin initSession (some ⟨"Ok.", some [("SID", "t")]⟩) =
      ({ cookies := [("SID", "t")] }, none) := by decide

example :
    auth_query initSession (some ⟨"Ok.", some [("SID", "t")]⟩) "get_torrents" =
      ({ cookies := [("SID", "t")] },
        [RpcCall.login, RpcCall.action "get_torrents"], none) := by decide

example :
    auth_query { cookies := [("SID", "t")] } none "get_torrents" =
      ({ cookies := [("SID", "t")] }, [RpcCall.action "get_torrents"], none) := by decide

example :
    method_add_torrent initSession "RAW" (some "/downloads") =
      { url := "command/upload", isPost := true, dataField := none
        fileField := some [("torrents", "RAW"), ("savepath", "/downloads")]
        cookiesSent := [] } := by decide

end Torrt
